import Mathlib

/-!
Shallow embedding of `libpysat/data/spectra.py` (the `Spectra` class, a
pandas-DataFrame subclass for spectral observations) together with the
pieces of repository code it relies on that live outside the provided
sources (the tolerance-aware locator from `libpysat/data/_index.py` and
the numeric routine `libpysat.utils.utils.linear_correction`), which are
modelled from the specification.

Modelling conventions:
* python floats are modelled as exact rationals (no claim depends on
  floating-point rounding);
* a DataFrame is a `Frame`: a row index (single-level or two-level),
  a list of column labels (a wavelength label `Sum.inl w` or a metadata
  name `Sum.inr s`), and row-major cells;
* fallible operations return `Except PyError`;
* python name resolution at module level is modelled by the list of
  names actually bound at the top level of `spectra.py`; neither
  `_Spectra_DataFrame` nor `io_moon_minerology_mapper` is a python
  builtin, so lookup of either raises `NameError`.
-/

/-- A column label of the table: either a real-valued wavelength label or a
named metadata column. -/
abbrev Label := ℚ ⊕ String

instance : BEq Label := instBEqOfDecidableEq

/-- The row index of the table: either a single-level index or a two-level
(`pd.MultiIndex`) composite index such as the `(x, y)` pixel index built by
`from_m3`. -/
inductive RowIndex where
  | single (keys : List ℚ)
  | multi (keys : List (ℚ × ℚ))
deriving DecidableEq, Repr

/-- Whether the row index is a `pd.MultiIndex` (the `isinstance(self.index,
pd.MultiIndex)` test in `Spectra.__getitem__`). -/
def RowIndex.isMulti : RowIndex → Bool
  | .single _ => false
  | .multi _ => true

/-- The underlying tabular data of a `Spectra`: row index, column labels and
row-major cell values (each row aligned with `columns`). -/
structure Frame where
  index : RowIndex
  columns : List Label
  cells : List (List ℚ)
deriving DecidableEq, Repr

/-- Errors surfaced by the python code: an unresolved global name
(`NameError`), a failed label lookup (`KeyError`), a tolerance lookup that
matches no stored label, and a key of the wrong arity for the index
structure in use. -/
inductive PyError where
  | nameError (missing : String)
  | keyError
  | noMatch
  | malformedKey
deriving DecidableEq, Repr

/-- The names bound at the top level of the module
`libpysat/data/spectra.py`: the twelve imported bindings and the class
`Spectra` itself.  Neither `_Spectra_DataFrame` nor
`io_moon_minerology_mapper` is among them (nor is either a python
builtin), so evaluating those names raises `NameError`. -/
def moduleGlobals : List String :=
  ["pd", "rand", "np", "Real", "Number", "reduce", "singledispatch",
   "io_spectral_profiler", "_idx", "lincorr", "linear_correction",
   "method_singledispatch", "Spectra"]

/-- Module-level name resolution for `spectra.py`. -/
def resolvesAtModuleLevel (n : String) : Bool := moduleGlobals.contains n

/-- The state carried by a constructed `Spectra` besides the underlying
DataFrame: the `wavelengths` index, the `metadata` column set, and the
`_tolerance` attribute of the `_get` locator (`none` models a locator on
which `_tolerance` was never set, i.e. `hasattr` is false). -/
structure SpectraState where
  frame : Frame
  wavelengths : List ℚ
  metadata : List Label
  tol : Option ℚ
deriving DecidableEq, Repr

namespace Spectra

/-- `pd.Index.difference`: the elements of `cols` not in `excl`.  pandas
returns this set sorted when the labels are comparable; the claims about it
are set-level, and it is modelled as an order-preserving filter. -/
def index_difference (cols excl : List Label) : List Label :=
  cols.filter (fun c : Label => !(decide (c ∈ excl)))

/-- The attribute initialisation performed by `Spectra.__init__` (lines
48-60 of `spectra.py`) after the `super()` call: install the locators with
`_tolerance = tolerance`, store the wavelengths, and set `metadata` to the
given labels when the list is non-empty and otherwise to
`self.columns.difference(self.wavelengths)`. -/
def mkState (f : Frame) (wavelengths : List ℚ := []) (metadata : List Label := [])
    (tolerance : ℚ := 0) : SpectraState :=
  { frame := f
    wavelengths := wavelengths
    metadata :=
      if metadata ≠ [] then metadata
      else index_difference f.columns (wavelengths.map Sum.inl)
    tol := some tolerance }

/-- Running `Spectra.__init__`: the first statement,
`super(_Spectra_DataFrame, self).__init__(...)`, evaluates the global name
`_Spectra_DataFrame` before anything else; if it does not resolve the call
raises `NameError` and the instance is never initialised. -/
def init_run (f : Frame) (wavelengths : List ℚ := []) (metadata : List Label := [])
    (tolerance : ℚ := 0) : Except PyError SpectraState :=
  if resolvesAtModuleLevel "_Spectra_DataFrame" then
    .ok (mkState f wavelengths metadata tolerance)
  else
    .error (.nameError "_Spectra_DataFrame")

/-- Running the `Spectra._constructor` property (lines 72-77): pandas calls
it to build the result of any rank-preserving operation, and its body
evaluates the global name `_Spectra_DataFrame`. -/
def constructor_run : Except PyError Unit :=
  if resolvesAtModuleLevel "_Spectra_DataFrame" then .ok ()
  else .error (.nameError "_Spectra_DataFrame")

/-- The value returned by the `Spectra.tolerance` getter: the stored
`_get._tolerance` when present, `.5` otherwise. -/
def toleranceVal (s : SpectraState) : ℚ := s.tol.getD (1/2)

/-- The `Spectra.tolerance` getter (lines 202-206): if the locator has no
`_tolerance` attribute it is first set to `.5`; the stored value is
returned.  The possibly-updated state is returned alongside the value. -/
def tolerance_get (s : SpectraState) : ℚ × SpectraState :=
  match s.tol with
  | none => (1/2, { s with tol := some (1/2) })
  | some t => (t, s)

/-- The `Spectra.tolerance` setter (lines 209-211): overwrite
`_get._tolerance`. -/
def tolerance_set (s : SpectraState) (v : ℚ) : SpectraState :=
  { s with tol := some v }

/-- Modelled from the spec: the core of the Tolerance Locator of
`libpysat/data/_index.py` (`SpectrumLocIndexer`), whose source is not
among the provided files.  Per the spec it resolves a requested
real-valued key against a reference sequence of labels with
nearest-match-within-tolerance semantics; matching fails when no label
lies within the tolerance window, and the tie-break between equally near
labels (left open by the spec) is modelled as the earliest label in the
sequence. -/
def locate (labels : List ℚ) (t q : ℚ) : Option ℚ :=
  match labels with
  | [] => none
  | w :: rest =>
    let r := locate rest t q
    if |w - q| ≤ t then
      match r with
      | none => some w
      | some b => if |w - q| ≤ |b - q| then some w else some b
    else r

/-- One component of a key handed to the locator: a full slice `:` or an
exact scalar value. -/
inductive KeyPart where
  | slice
  | val (q : ℚ)
deriving DecidableEq, Repr

/-- Whether a key component selects a given index-level value: a slice
selects everything, a scalar selects by exact equality. -/
def matchPart (p : KeyPart) (v : ℚ) : Bool :=
  match p with
  | .slice => true
  | .val q => q == v

/-- Extract, from the rows selected by the index part of the key, the
column whose wavelength label the locator resolved `q` to: resolve `q`
against `wavelengths` within the table's tolerance, then fetch that
column's cell of every selected row. -/
def resolveCol (s : SpectraState) (q : ℚ) (rows : List (List ℚ)) :
    Except PyError (List ℚ) :=
  match locate s.wavelengths (toleranceVal s) q with
  | none => .error .noMatch
  | some w =>
    match s.frame.columns.findIdx? (fun l => l == Sum.inl w) with
    | none => .error .keyError
    | some j => .ok (rows.map (fun r => r.getD j 0))

/-- Modelled from the spec: a scalar lookup through the Tolerance Locator,
`self.get[parts]`.  On a single-level index the key is `[rowPart,
columnKey]`; on a two-level `MultiIndex` it is `[level0Part, level1Part,
columnKey]` with the two index levels matched exactly and the final
component tolerance-matched against the wavelength columns.  Any other
arity is a malformed key for the index structure in use. -/
def locGet (s : SpectraState) (parts : List KeyPart) : Except PyError (List ℚ) :=
  match s.frame.index, parts with
  | .single ks, [p, .val q] =>
    resolveCol s q
      ((ks.zip s.frame.cells).filterMap
        (fun kr => if matchPart p kr.1 then some kr.2 else none))
  | .multi ks, [p1, p2, .val q] =>
    resolveCol s q
      ((ks.zip s.frame.cells).filterMap
        (fun kr => if matchPart p1 kr.1.1 && matchPart p2 kr.1.2 then some kr.2 else none))
  | _, _ => .error .malformedKey

/-- `Spectra.__getitem__` for a scalar key (lines 130-144): dispatch on the
index structure — `self.get[:, :, key]` when the row index is a
`pd.MultiIndex`, `self.get[:, key]` otherwise. -/
def getitem (s : SpectraState) (key : ℚ) : Except PyError (List ℚ) :=
  if s.frame.index.isMulti then locGet s [.slice, .slice, .val key]
  else locGet s [.slice, .val key]

/-- Modelled from the spec: `self.get[:, keys]` for a list of column
labels, as issued by the `.meta` and `.spectra` views — select exactly the
requested stored columns, in the requested order, keeping the row index;
a label absent from the table is a lookup error.  The wavelengths,
metadata set and tolerance are carried to the rank-preserving result. -/
def selectColumns (s : SpectraState) (keys : List Label) :
    Except PyError SpectraState :=
  if keys.all (fun k => s.frame.columns.contains k) then
    .ok { s with
          frame :=
            { s.frame with
              columns := keys
              cells := s.frame.cells.map (fun r =>
                keys.map (fun k =>
                  match s.frame.columns.findIdx? (fun l => l == k) with
                  | some j => r.getD j 0
                  | none => 0)) } }
  else .error .keyError

/-- The `Spectra.meta` view (lines 188-190): `self[self.metadata]`. -/
def metaView (s : SpectraState) : Except PyError SpectraState :=
  selectColumns s s.metadata

/-- The `Spectra.spectra` view (lines 193-195): `self[self.wavelengths]`. -/
def spectraView (s : SpectraState) : Except PyError SpectraState :=
  selectColumns s (s.wavelengths.map Sum.inl)

/-- Running the `.meta` view: pandas builds the resulting sub-frame
through the `_constructor` property, so the unresolvable name
`_Spectra_DataFrame` is evaluated before the view can be returned. -/
def meta_run (s : SpectraState) : Except PyError SpectraState :=
  constructor_run >>= fun _ => metaView s

/-- Running the `.spectra` view, through `_constructor` as well. -/
def spectra_run (s : SpectraState) : Except PyError SpectraState :=
  constructor_run >>= fun _ => spectraView s

/-- The cell of a row at a given column label (`row[label]` on a pandas
row Series); absent labels are modelled as 0, never relied upon. -/
def rowCell (cols : List Label) (r : List ℚ) (l : Label) : ℚ :=
  match cols.findIdx? (fun c => c == l) with
  | some j => r.getD j 0
  | none => 0

/-- The continuum anchor positions chosen by `Spectra.linear_correction`
(line 117): `bands = tuple([0, len(wavelengths)-1])` — positions into the
stored wavelength sequence, independent of the wavelength values. -/
def linear_correction_bands (wavelengths : List ℚ) : ℕ × ℕ :=
  (0, wavelengths.length - 1)

/-- Modelled from the spec: the routine
`libpysat.utils.utils.linear_correction` (its source is not among the
provided files).  Per the spec it normalises the curve `y` against the
straight line joining the two anchor points `bands` across all
wavelengths: each value is divided by the line's value at its wavelength
(rational division by zero yields 0). -/
def linear_correction_util (bands : ℕ × ℕ) (y : List ℚ) (wavelengths : List ℚ) :
    List ℚ :=
  let x0 := wavelengths.getD bands.1 0
  let x1 := wavelengths.getD bands.2 0
  let y0 := y.getD bands.1 0
  let y1 := y.getD bands.2 0
  (List.range y.length).map (fun j =>
    let line := y0 + (y1 - y0) * (wavelengths.getD j 0 - x0) / (x1 - x0)
    y.getD j 0 / line)

/-- The per-row closure `lincorr` of `Spectra.linear_correction` (lines
119-124): select the row's wavelength entries (`row[wavelengths]`), run
the correction routine with the positional anchor pair, and rebuild a
spectrum indexed by the wavelengths. -/
def lincorrRow (s : SpectraState) (r : List ℚ) : List ℚ :=
  linear_correction_util (linear_correction_bands s.wavelengths)
    (s.wavelengths.map (fun w => rowCell s.frame.columns r (Sum.inl w)))
    s.wavelengths

/-- The DataFrame produced by `self.apply(lincorr, axis=1)` (line 126):
one corrected spectrum per input row, on the same row index, with the
wavelengths as columns. -/
def corrFrame (s : SpectraState) : Frame :=
  { index := s.frame.index
    columns := s.wavelengths.map Sum.inl
    cells := s.frame.cells.map (lincorrRow s) }

/-- `Spectra.linear_correction` (lines 112-127), attribute-level result:
`Spectra(data, wavelengths=self.wavelengths, tolerance=self.tolerance)`
on the corrected rows. -/
def linear_correction (s : SpectraState) : SpectraState :=
  mkState (corrFrame s) s.wavelengths [] (toleranceVal s)

/-- Running `Spectra.linear_correction`: the final statement constructs a
new `Spectra`, so it goes through `Spectra.__init__` and its `super` call
on the unresolvable name `_Spectra_DataFrame`. -/
def linear_correction_run (s : SpectraState) : Except PyError SpectraState :=
  init_run (corrFrame s) s.wavelengths [] (toleranceVal s)

/-- The composite row keys built by `from_m3` (line 101): coordinate `i`
of the row-major raster enumeration is pixel
`(i % RasterXSize, i // RasterXSize)`. -/
def m3Coords (W H : ℕ) : List (ℚ × ℚ) :=
  (List.range (W * H)).map (fun i => (((i % W : ℕ) : ℚ), ((i / W : ℕ) : ℚ)))

/-- The observation table of `from_m3` before sorting: reshaped raster
row `i` keyed by `m3Coords i`. -/
def m3_presort (W H : ℕ) (data : List (List ℚ)) : List ((ℚ × ℚ) × List ℚ) :=
  (m3Coords W H).zip data

/-- Ascending lexicographic order on the composite `(x, y)` keys, the
order `sort_index` establishes on the `MultiIndex`. -/
def keyLe (a b : ℚ × ℚ) : Bool :=
  decide (a.1 < b.1) || (decide (a.1 = b.1) && decide (a.2 ≤ b.2))

/-- The observation table of `from_m3` after `sort_index` (line 108):
rows reordered so the composite keys ascend. -/
def m3_sorted (W H : ℕ) (data : List (List ℚ)) : List ((ℚ × ℚ) × List ℚ) :=
  (m3_presort W H data).mergeSort (fun p q => keyLe p.1 q.1)

/-- The attribute-level table built by `from_m3` (lines 94-109) from the
parsed cube: reshaped rows keyed by pixel coordinates, the per-scene
metadata dictionary broadcast as constant columns onto every row, rows
sorted ascending by the composite key, the result wrapped with the cube's
wavelengths and metadata keys. -/
def from_m3_build (W H : ℕ) (data : List (List ℚ)) (wavelengths : List ℚ)
    (metaCols : List String) (metaVals : List ℚ) (tolerance : ℚ) : SpectraState :=
  let rows := m3_sorted W H data
  mkState
    { index := .multi (rows.map Prod.fst)
      columns := wavelengths.map Sum.inl ++ metaCols.map Sum.inr
      cells := rows.map (fun kr => kr.2 ++ metaVals) }
    wavelengths (metaCols.map Sum.inr) tolerance

/-- Everything `io_moon_minerology_mapper.openm3` and the GDAL dataset
would supply to `from_m3`: raster width and height, the reshaped
pixel-by-band array, the wavelengths, and the scene metadata
dictionary. -/
structure M3Data where
  W : ℕ
  H : ℕ
  data : List (List ℚ)
  wavelengths : List ℚ
  metaCols : List String
  metaVals : List ℚ

/-- Running `Spectra.from_m3` (lines 81-109): the first statement,
`io_moon_minerology_mapper.openm3(path_to_file)`, evaluates the global
name `io_moon_minerology_mapper` before the parser (here an arbitrary
oracle `openm3`) could even be invoked; only if it resolved would the
table be built and handed to the constructor. -/
def from_m3_run (openm3 : String → M3Data) (path : String) (tolerance : ℚ := 2) :
    Except PyError SpectraState :=
  if resolvesAtModuleLevel "io_moon_minerology_mapper" then
    let d := openm3 path
    init_run (from_m3_build d.W d.H d.data d.wavelengths d.metaCols d.metaVals
        tolerance).frame
      d.wavelengths (d.metaCols.map Sum.inr) tolerance
  else .error (.nameError "io_moon_minerology_mapper")

/-- Running `Spectra.from_spectral_profiler` (lines 147-175): the external
parse and the pandas pivoting are abstracted as an oracle producing the
assembled frame and wavelengths; the final statement constructs the
result through `Spectra.__init__`. -/
def from_spectral_profiler_run (parse : String → Frame × List ℚ) (f : String)
    (tolerance : ℚ := 1) : Except PyError SpectraState :=
  let fw := parse f
  init_run fw.1 fw.2 [] tolerance

/-- The positional anchor *values* picked by `linear_correction`: the
wavelength values sitting at the two `bands` positions. -/
def anchorValues (wavelengths : List ℚ) : ℚ × ℚ :=
  (wavelengths.getD (linear_correction_bands wavelengths).1 0,
   wavelengths.getD (linear_correction_bands wavelengths).2 0)

/-- The value-based alternative the spec contrasts the code with: the
smallest and largest wavelength *values* of the sequence. -/
def extremeValueAnchors (wavelengths : List ℚ) : ℚ × ℚ :=
  (wavelengths.foldr (fun a b => if a ≤ b then a else b) (wavelengths.getD 0 0),
   wavelengths.foldr (fun a b => if b ≤ a then a else b) (wavelengths.getD 0 0))

end Spectra

/-- A small concrete table used to instantiate the general theorems: one
row `[10, 20, 30]` over columns `[0, 10, "a"]` of which `0` and `10` are
wavelengths, single-level row index `[0]`. -/
def exFrame : Frame :=
  { index := .single [0]
    columns := [Sum.inl 0, Sum.inl 10, Sum.inr "a"]
    cells := [[10, 20, 30]] }

/-- The concrete table wrapped as a `Spectra` with tolerance `4`. -/
def exState : SpectraState := Spectra.mkState exFrame [0, 10] [] 4

/-- The same data under a two-level row index. -/
def exStateM : SpectraState :=
  Spectra.mkState
    { exFrame with index := .multi [(0, 0)] } [0, 10] [] 4

theorem resolve_Spectra_DataFrame :
    resolvesAtModuleLevel "_Spectra_DataFrame" = false := by decide

theorem resolve_io_moon :
    resolvesAtModuleLevel "io_moon_minerology_mapper" = false := by decide

theorem index_difference_self (L : List Label) :
    Spectra.index_difference L L = [] := by
  simp only [Spectra.index_difference, List.filter_eq_nil_iff]
  intro a ha
  simp [ha]

/-- C1: every construction of a `Spectra` evaluates the undefined global
name `_Spectra_DataFrame` (in `__init__`'s `super` call, or in the
`_constructor` property pandas uses to build derived frames) and so raises
`NameError`; consequently `linear_correction`, the `.meta` and `.spectra`
views, `from_spectral_profiler` and `from_m3` never return normally. -/
theorem claim_C1 :
    (∀ (f : Frame) (wls : List ℚ) (md : List Label) (t : ℚ),
        Spectra.init_run f wls md t = .error (.nameError "_Spectra_DataFrame")) ∧
    (∀ s : SpectraState,
        Spectra.linear_correction_run s = .error (.nameError "_Spectra_DataFrame")) ∧
    (∀ s : SpectraState,
        Spectra.meta_run s = .error (.nameError "_Spectra_DataFrame")) ∧
    (∀ s : SpectraState,
        Spectra.spectra_run s = .error (.nameError "_Spectra_DataFrame")) ∧
    (∀ (parse : String → Frame × List ℚ) (f : String) (t : ℚ),
        Spectra.from_spectral_profiler_run parse f t =
          .error (.nameError "_Spectra_DataFrame")) ∧
    (∀ (openm3 : String → Spectra.M3Data) (p : String) (t : ℚ),
        ∃ e, Spectra.from_m3_run openm3 p t = .error e) := by
  refine ⟨?_, ?_, ?_, ?_, ?_, ?_⟩ <;> intros <;>
    simp [Spectra.init_run, Spectra.linear_correction_run, Spectra.meta_run,
      Spectra.spectra_run, Spectra.from_spectral_profiler_run,
      Spectra.from_m3_run, Spectra.constructor_run,
      resolve_Spectra_DataFrame, resolve_io_moon, Bind.bind, Except.bind]

/-- C9: `from_m3` evaluates the global name `io_moon_minerology_mapper`
(never imported — the module only imports `io_spectral_profiler`) before
any parsing can happen, so it raises `NameError` for every path and
tolerance, independently of the parser. -/
theorem claim_C9 :
    ∀ (openm3 : String → Spectra.M3Data) (path : String) (t : ℚ),
      Spectra.from_m3_run openm3 path t =
        .error (.nameError "io_moon_minerology_mapper") := by
  intros
  simp [Spectra.from_m3_run, resolve_io_moon]

/-- C2: the `.tolerance` getter returns the stored tolerance (which
`__init__` sets to the `tolerance` argument), returns `1/2` when no
tolerance was ever set, and a read following a write returns the written
value. -/
theorem claim_C2 :
    (∀ (f : Frame) (wls : List ℚ) (md : List Label) (t : ℚ),
        (Spectra.mkState f wls md t).tol = some t) ∧
    (∀ (s : SpectraState) (t : ℚ), s.tol = some t →
        (Spectra.tolerance_get s).1 = t) ∧
    (∀ s : SpectraState, s.tol = none →
        (Spectra.tolerance_get s).1 = 1/2) ∧
    (∀ (s : SpectraState) (v : ℚ),
        (Spectra.tolerance_get (Spectra.tolerance_set s v)).1 = v) := by
  refine ⟨fun f wls md t => rfl, fun s t h => ?_, fun s h => ?_, fun s v => rfl⟩
  · simp [Spectra.tolerance_get, h]
  · simp [Spectra.tolerance_get, h]

/-- Witness for C2 at concrete tables: a stored tolerance `3` is read
back, and an unset tolerance reads as `1/2`. -/
theorem claim_C2_witness :
    (Spectra.tolerance_get { exState with tol := some 3 }).1 = 3 ∧
    (Spectra.tolerance_get { exState with tol := none }).1 = 1 / 2 :=
  ⟨claim_C2.2.1 _ 3 rfl, claim_C2.2.2.1 _ rfl⟩

/-- C6: `linear_correction` anchors the continuum at positions `0` and
`length - 1` of the stored wavelength sequence for every table; on the
non-monotonic sequence `[5, 1, 3]` the anchor values are therefore
`(5, 3)`, not the extreme values `(1, 5)`. -/
theorem claim_C6 :
    (∀ s : SpectraState,
        Spectra.linear_correction_bands s.wavelengths =
          (0, s.wavelengths.length - 1)) ∧
    Spectra.anchorValues [5, 1, 3] = (5, 3) ∧
    Spectra.extremeValueAnchors [5, 1, 3] = (1, 5) ∧
    ¬ List.Sorted (· ≤ ·) ([5, 1, 3] : List ℚ) := by
  refine ⟨fun s => rfl, by decide, by decide, by decide⟩

/-- C7: `linear_correction` yields a table with the identical wavelength
sequence, the identical (effective) tolerance, the same row index, and
exactly one corrected spectrum per input row in the input's order: cell
row `i` of the result is `lincorr` of cell row `i` of the input. -/
theorem claim_C7 :
    ∀ s : SpectraState,
      (Spectra.linear_correction s).wavelengths = s.wavelengths ∧
      Spectra.toleranceVal (Spectra.linear_correction s) = Spectra.toleranceVal s ∧
      (Spectra.linear_correction s).frame.index = s.frame.index ∧
      (Spectra.linear_correction s).frame.cells.length = s.frame.cells.length ∧
      ∀ i : ℕ, (Spectra.linear_correction s).frame.cells[i]? =
        (s.frame.cells[i]?).map (Spectra.lincorrRow s) := by
  intro s
  refine ⟨rfl, rfl, rfl, ?_, fun i => ?_⟩
  · simp [Spectra.linear_correction, Spectra.mkState, Spectra.corrFrame]
  · simp [Spectra.linear_correction, Spectra.mkState, Spectra.corrFrame]

/-- Selecting with a full slice against a single-level index keeps every
row (when the index covers the rows, as pandas guarantees). -/
theorem slice_keeps_rows_single (ks : List ℚ) (cells : List (List ℚ))
    (h : cells.length ≤ ks.length) :
    (ks.zip cells).filterMap
      (fun kr => if Spectra.matchPart .slice kr.1 then some kr.2 else none) = cells := by
  simp only [Spectra.matchPart, if_true]
  rw [show (fun kr : ℚ × List ℚ => some kr.2) = some ∘ Prod.snd from rfl,
    List.filterMap_eq_map]
  exact List.map_snd_zip ks cells h

/-- Selecting with two full slices against a two-level index keeps every
row. -/
theorem slice_keeps_rows_multi (ks : List (ℚ × ℚ)) (cells : List (List ℚ))
    (h : cells.length ≤ ks.length) :
    (ks.zip cells).filterMap
      (fun kr => if Spectra.matchPart .slice kr.1.1 && Spectra.matchPart .slice kr.1.2
                 then some kr.2 else none) = cells := by
  simp only [Spectra.matchPart, Bool.and_self, if_true]
  rw [show (fun kr : (ℚ × ℚ) × List ℚ => some kr.2) = some ∘ Prod.snd from rfl,
    List.filterMap_eq_map]
  exact List.map_snd_zip ks cells h

/-- C3: scalar element access dispatches on the index structure — through
the locator as `get[:, key]` on a single-level index and as
`get[:, :, key]` (both index levels fully sliced, the key
tolerance-matched against the wavelength columns) on a `MultiIndex`; in
both cases, when the index covers the rows, the result is the
tolerance-resolved wavelength column over all rows. -/
theorem claim_C3 :
    ∀ (s : SpectraState) (q : ℚ),
      (s.frame.index.isMulti = false →
        Spectra.getitem s q = Spectra.locGet s [.slice, .val q]) ∧
      (s.frame.index.isMulti = true →
        Spectra.getitem s q = Spectra.locGet s [.slice, .slice, .val q]) ∧
      (∀ ks, s.frame.index = .single ks → s.frame.cells.length ≤ ks.length →
        Spectra.getitem s q = Spectra.resolveCol s q s.frame.cells) ∧
      (∀ ks, s.frame.index = .multi ks → s.frame.cells.length ≤ ks.length →
        Spectra.getitem s q = Spectra.resolveCol s q s.frame.cells) := by
  intro s q
  refine ⟨fun h => by simp [Spectra.getitem, h], fun h => by simp [Spectra.getitem, h],
    fun ks hks hlen => ?_, fun ks hks hlen => ?_⟩
  · rw [Spectra.getitem, hks]
    simp only [RowIndex.isMulti, Bool.false_eq_true, if_false, Spectra.locGet, hks]
    rw [slice_keeps_rows_single ks s.frame.cells hlen]
  · rw [Spectra.getitem, hks]
    simp only [RowIndex.isMulti, if_true, Spectra.locGet, hks]
    rw [slice_keeps_rows_multi ks s.frame.cells hlen]

/-- Witness for C3 at the concrete tables: on the single-level table the
access resolves through `get[:, key]` to the tolerance-resolved column
over all rows, on the `MultiIndex` table through `get[:, :, key]`. -/
theorem claim_C3_witness :
    Spectra.getitem exState 1 = Spectra.resolveCol exState 1 exState.frame.cells ∧
    Spectra.getitem exStateM 1 = Spectra.resolveCol exStateM 1 exStateM.frame.cells :=
  ⟨(claim_C3 exState 1).2.2.1 [0] rfl (by decide),
   (claim_C3 exStateM 1).2.2.2 [(0, 0)] rfl (by decide)⟩

theorem contains_of_mem {L : List Label} {a : Label} (h : a ∈ L) :
    L.contains a = true :=
  List.elem_iff.2 h

/-- Selecting a list of stored column labels succeeds and yields a view
whose columns are exactly the requested labels in the requested order. -/
theorem selectColumns_columns {s : SpectraState} {keys : List Label}
    (h : ∀ k ∈ keys, k ∈ s.frame.columns) :
    ∃ r, Spectra.selectColumns s keys = .ok r ∧ r.frame.columns = keys := by
  unfold Spectra.selectColumns
  rw [if_pos]
  · exact ⟨_, rfl, rfl⟩
  · rw [List.all_eq_true]
    intro k hk
    exact contains_of_mem (h k hk)

/-- C4: with the metadata set left to its default, the `.spectra` view's
columns are exactly the wavelength labels in their original order, the
`.meta` view's columns are exactly the complement of the wavelength set
within the table's columns, the two sets are disjoint, and their union is
the full column set (given the loader-guaranteed assumption that every
wavelength label is an actual column). -/
theorem claim_C4 :
    ∀ (f : Frame) (wls : List ℚ) (t : ℚ),
      (∀ w ∈ wls, Sum.inl w ∈ f.columns) →
      ∃ sv mv,
        Spectra.spectraView (Spectra.mkState f wls [] t) = .ok sv ∧
        Spectra.metaView (Spectra.mkState f wls [] t) = .ok mv ∧
        sv.frame.columns = wls.map Sum.inl ∧
        (∀ l, l ∈ mv.frame.columns ↔ l ∈ f.columns ∧ l ∉ wls.map Sum.inl) ∧
        (∀ l, l ∈ sv.frame.columns → l ∉ mv.frame.columns) ∧
        (∀ l, l ∈ f.columns ↔ (l ∈ sv.frame.columns ∨ l ∈ mv.frame.columns)) := by
  intro f wls t h1
  have hwl : ∀ k ∈ wls.map Sum.inl, k ∈ (Spectra.mkState f wls [] t).frame.columns := by
    intro k hk
    obtain ⟨w, hw, rfl⟩ := List.mem_map.1 hk
    exact h1 w hw
  have hmd : ∀ k ∈ (Spectra.mkState f wls [] t).metadata,
      k ∈ (Spectra.mkState f wls [] t).frame.columns := by
    intro k hk
    simp only [Spectra.mkState, ne_eq, not_true_eq_false, if_false, ite_false,
      Spectra.index_difference, List.mem_filter] at hk ⊢
    exact hk.1
  obtain ⟨sv, hsv, hsvc⟩ := selectColumns_columns hwl
  obtain ⟨mv, hmv, hmvc⟩ := selectColumns_columns hmd
  have hmvc2 : mv.frame.columns =
      Spectra.index_difference f.columns (wls.map Sum.inl) := hmvc
  refine ⟨sv, mv, hsv, hmv, hsvc, fun l => ?_, fun l hl => ?_, fun l => ?_⟩
  · rw [hmvc2]
    simp [Spectra.index_difference, List.mem_filter]
  · rw [hsvc] at hl
    rw [hmvc2]
    intro hmem
    simp only [Spectra.index_difference, List.mem_filter] at hmem
    rcases hmem with ⟨-, hneg⟩
    simp only [Bool.not_eq_true', decide_eq_false_iff_not] at hneg
    exact hneg hl
  · constructor
    · intro hlf
      by_cases hw : l ∈ wls.map Sum.inl
      · exact Or.inl (hsvc ▸ hw)
      · refine Or.inr ?_
        rw [hmvc2]
        simp only [Spectra.index_difference]
        refine List.mem_filter.2 ⟨hlf, ?_⟩
        simp [hw]
    · rintro (hl | hl)
      · rw [hsvc] at hl
        obtain ⟨w, hw, rfl⟩ := List.mem_map.1 hl
        exact h1 w hw
      · rw [hmvc2] at hl
        simp only [Spectra.index_difference, List.mem_filter] at hl
        exact hl.1

/-- Witness for C4 at the concrete table: wavelengths `[0, 10]`, columns
`[inl 0, inl 10, inr "a"]`. -/
theorem claim_C4_witness :
    ∃ sv mv,
      Spectra.spectraView (Spectra.mkState exFrame [0, 10] [] 4) = .ok sv ∧
      Spectra.metaView (Spectra.mkState exFrame [0, 10] [] 4) = .ok mv ∧
      sv.frame.columns = ([0, 10] : List ℚ).map Sum.inl ∧
      (∀ l, l ∈ mv.frame.columns ↔
        l ∈ exFrame.columns ∧ l ∉ ([0, 10] : List ℚ).map Sum.inl) ∧
      (∀ l, l ∈ sv.frame.columns → l ∉ mv.frame.columns) ∧
      (∀ l, l ∈ exFrame.columns ↔
        (l ∈ sv.frame.columns ∨ l ∈ mv.frame.columns)) :=
  claim_C4 exFrame [0, 10] 4 (by decide)

theorem keyLe_trans :
    ∀ a b c : ℚ × ℚ, Spectra.keyLe a b = true → Spectra.keyLe b c = true →
      Spectra.keyLe a c = true := by
  intro a b c hab hbc
  simp only [Spectra.keyLe, Bool.or_eq_true, Bool.and_eq_true,
    decide_eq_true_eq] at hab hbc ⊢
  rcases hab with h1 | ⟨h1, h2⟩ <;> rcases hbc with h3 | ⟨h3, h4⟩
  · exact Or.inl (h1.trans h3)
  · exact Or.inl (h3 ▸ h1)
  · exact Or.inl (h1 ▸ h3)
  · exact Or.inr ⟨h1.trans h3, h2.trans h4⟩

theorem keyLe_total :
    ∀ a b : ℚ × ℚ, (Spectra.keyLe a b || Spectra.keyLe b a) = true := by
  intro a b
  simp only [Spectra.keyLe, Bool.or_eq_true, Bool.and_eq_true, decide_eq_true_eq]
  rcases lt_trichotomy a.1 b.1 with h | h | h
  · exact Or.inl (Or.inl h)
  · rcases le_total a.2 b.2 with h2 | h2
    · exact Or.inl (Or.inr ⟨h, h2⟩)
    · exact Or.inr (Or.inr ⟨h.symm, h2⟩)
  · exact Or.inr (Or.inl h)

/-- C5: before sorting, row `i` of the table built by `from_m3` is the
reshaped array's row `i` keyed by pixel coordinates
`(i mod W, i div W)`; the returned table's rows are a permutation of
these whose composite `(x, y)` keys ascend lexicographically. -/
theorem claim_C5 :
    ∀ (W H : ℕ) (data : List (List ℚ)),
      data.length = W * H →
      (∀ i, i < W * H → ∃ d, data[i]? = some d ∧
        (Spectra.m3_presort W H data)[i]? =
          some ((((i % W : ℕ) : ℚ), ((i / W : ℕ) : ℚ)), d)) ∧
      List.Sorted (fun a b => Spectra.keyLe a b = true)
        ((Spectra.m3_sorted W H data).map Prod.fst) ∧
      (Spectra.m3_sorted W H data).Perm (Spectra.m3_presort W H data) := by
  intro W H data hlen
  refine ⟨fun i hi => ?_, ?_, ?_⟩
  · have hib : i < data.length := by omega
    have hd : data[i]? = some (data.get ⟨i, hib⟩) :=
      List.getElem?_eq_getElem hib
    refine ⟨_, hd, ?_⟩
    rw [Spectra.m3_presort]
    refine List.getElem?_zip_eq_some.2 ⟨?_, hd⟩
    rw [Spectra.m3Coords, List.getElem?_map, List.getElem?_range hi]
    rfl
  · have hs := @List.sorted_mergeSort ((ℚ × ℚ) × List ℚ)
      (fun p q => Spectra.keyLe p.1 q.1)
      (fun a b c => keyLe_trans a.1 b.1 c.1)
      (fun a b => keyLe_total a.1 b.1)
      (Spectra.m3_presort W H data)
    rw [Spectra.m3_sorted]
    exact List.pairwise_map.2 hs
  · exact List.mergeSort_perm _ _

/-- Witness for C5: a 2-by-1 raster with rows `[1]` and `[2]`. -/
theorem claim_C5_witness :
    (∀ i, i < 2 * 1 → ∃ d, ([[1], [2]] : List (List ℚ))[i]? = some d ∧
      (Spectra.m3_presort 2 1 [[1], [2]])[i]? =
        some ((((i % 2 : ℕ) : ℚ), ((i / 2 : ℕ) : ℚ)), d)) ∧
    List.Sorted (fun a b => Spectra.keyLe a b = true)
      ((Spectra.m3_sorted 2 1 [[1], [2]]).map Prod.fst) ∧
    (Spectra.m3_sorted 2 1 [[1], [2]]).Perm (Spectra.m3_presort 2 1 [[1], [2]]) :=
  claim_C5 2 1 [[1], [2]] (by decide)

theorem locate_eq_some {L : List ℚ} {t q b : ℚ}
    (h : Spectra.locate L t q = some b) : b ∈ L ∧ |b - q| ≤ t := by
  induction L with
  | nil => simp [Spectra.locate] at h
  | cons w rest ih =>
    by_cases hw : |w - q| ≤ t
    · cases hr : Spectra.locate rest t q with
      | none =>
        simp only [Spectra.locate, hr, if_pos hw, Option.some.injEq] at h
        subst h
        exact ⟨List.mem_cons_self w rest, hw⟩
      | some c =>
        by_cases hcmp : |w - q| ≤ |c - q|
        · simp only [Spectra.locate, hr, if_pos hw, if_pos hcmp,
            Option.some.injEq] at h
          subst h
          exact ⟨List.mem_cons_self w rest, hw⟩
        · simp only [Spectra.locate, hr, if_pos hw, if_neg hcmp,
            Option.some.injEq] at h
          subst h
          rcases ih hr with ⟨hm, hb⟩
          exact ⟨List.mem_cons_of_mem w hm, hb⟩
    · rw [Spectra.locate, if_neg hw] at h
      rcases ih h with ⟨hm, hb⟩
      exact ⟨List.mem_cons_of_mem w hm, hb⟩

theorem locate_isSome {L : List ℚ} {t q w : ℚ} (hw : w ∈ L) (h : |w - q| ≤ t) :
    (Spectra.locate L t q).isSome := by
  induction L with
  | nil => cases hw
  | cons w0 rest ih =>
    rcases List.mem_cons.1 hw with rfl | hw0
    · cases hr : Spectra.locate rest t q with
      | none => simp [Spectra.locate, hr, if_pos h]
      | some c =>
        by_cases hc : |w - q| ≤ |c - q| <;>
          simp [Spectra.locate, hr, if_pos h, hc]
    · have hr0 := ih hw0
      by_cases h0 : |w0 - q| ≤ t
      · cases hr : Spectra.locate rest t q with
        | none => simp [Spectra.locate, hr, if_pos h0]
        | some c =>
          by_cases hc : |w0 - q| ≤ |c - q| <;>
            simp [Spectra.locate, hr, if_pos h0, hc]
      · rw [Spectra.locate, if_neg h0]
        exact hr0

theorem locate_min {L : List ℚ} {t q : ℚ} :
    ∀ b, Spectra.locate L t q = some b →
      ∀ w ∈ L, |w - q| ≤ t → |b - q| ≤ |w - q| := by
  induction L with
  | nil => intro b h; simp [Spectra.locate] at h
  | cons w0 rest ih =>
    intro b h w hw hwt
    by_cases h0 : |w0 - q| ≤ t
    · cases hr : Spectra.locate rest t q with
      | none =>
        simp only [Spectra.locate, hr, if_pos h0, Option.some.injEq] at h
        subst h
        rcases List.mem_cons.1 hw with rfl | hw0
        · exact le_refl _
        · have hS := locate_isSome hw0 hwt
          rw [hr] at hS
          cases hS
      | some c =>
        by_cases hc : |w0 - q| ≤ |c - q|
        · simp only [Spectra.locate, hr, if_pos h0, if_pos hc,
            Option.some.injEq] at h
          subst h
          rcases List.mem_cons.1 hw with rfl | hw0
          · exact le_refl _
          · exact hc.trans (ih c hr w hw0 hwt)
        · simp only [Spectra.locate, hr, if_pos h0, if_neg hc,
            Option.some.injEq] at h
          subst h
          rcases List.mem_cons.1 hw with rfl | hw0
          · exact (not_le.1 hc).le
          · exact ih c hr w hw0 hwt
    · rw [Spectra.locate, if_neg h0] at h
      rcases List.mem_cons.1 hw with rfl | hw0
      · exact absurd hwt h0
      · exact ih b h w hw0 hwt

/-- An exactly stored label resolves to itself for every non-negative
tolerance: nothing can be strictly nearer than distance zero. -/
theorem locate_self {L : List ℚ} {t w : ℚ} (hw : w ∈ L) (ht : 0 ≤ t) :
    Spectra.locate L t w = some w := by
  have h0 : |w - w| ≤ t := by simpa [sub_self] using ht
  obtain ⟨b, hb⟩ := Option.isSome_iff_exists.1 (locate_isSome hw h0)
  have hmin := locate_min b hb w hw h0
  rw [sub_self, abs_zero] at hmin
  have hz : |b - w| = 0 := le_antisymm hmin (abs_nonneg _)
  have hbw : b = w := sub_eq_zero.1 (abs_eq_zero.1 hz)
  rw [hb, hbw]

/-- When the requested key is strictly nearer to `w` than to every other
stored label, and `w` is within tolerance, the locator resolves to `w`. -/
theorem locate_strict {L : List ℚ} {t q w : ℚ} (hw : w ∈ L) (hq : |w - q| ≤ t)
    (hn : ∀ x ∈ L, x ≠ w → |w - q| < |x - q|) :
    Spectra.locate L t q = some w := by
  obtain ⟨b, hb⟩ := Option.isSome_iff_exists.1 (locate_isSome hw hq)
  rcases locate_eq_some hb with ⟨hbL, -⟩
  have hmin := locate_min b hb w hw hq
  by_cases hbw : b = w
  · rw [hb, hbw]
  · exact absurd hmin (not_le.2 (hn b hbL hbw))

/-- When every stored label is farther than the tolerance from the
requested key, the locator fails. -/
theorem locate_none {L : List ℚ} {t q : ℚ} (h : ∀ x ∈ L, t < |x - q|) :
    Spectra.locate L t q = none := by
  induction L with
  | nil => rfl
  | cons w rest ih =>
    rw [Spectra.locate, if_neg (not_le.2 (h w (List.mem_cons_self w rest)))]
    exact ih (fun x hx => h x (List.mem_cons_of_mem w hx))

/-- At tolerance zero a successful resolution is an exact match. -/
theorem locate_zero_exact {L : List ℚ} {q b : ℚ}
    (h : Spectra.locate L 0 q = some b) : b = q ∧ q ∈ L := by
  rcases locate_eq_some h with ⟨hm, hb⟩
  have hz : |b - q| = 0 := le_antisymm hb (abs_nonneg _)
  have hbq : b = q := sub_eq_zero.1 (abs_eq_zero.1 hz)
  exact ⟨hbq, hbq ▸ hm⟩

/-- Two keys the locator resolves identically fetch identical data. -/
theorem getitem_congr (s : SpectraState) (q1 q2 : ℚ)
    (h : Spectra.locate s.wavelengths (Spectra.toleranceVal s) q1 =
         Spectra.locate s.wavelengths (Spectra.toleranceVal s) q2) :
    Spectra.getitem s q1 = Spectra.getitem s q2 := by
  cases hidx : s.frame.index with
  | single ks =>
    simp only [Spectra.getitem, hidx, RowIndex.isMulti, Bool.false_eq_true,
      if_false, ite_false, Spectra.locGet, Spectra.resolveCol, h]
  | multi ks =>
    simp only [Spectra.getitem, hidx, RowIndex.isMulti, if_true, ite_true,
      Spectra.locGet, Spectra.resolveCol, h]

/-- A key the locator cannot resolve makes element access fail. -/
theorem getitem_noMatch (s : SpectraState) (q : ℚ)
    (h : Spectra.locate s.wavelengths (Spectra.toleranceVal s) q = none) :
    Spectra.getitem s q = .error .noMatch := by
  cases hidx : s.frame.index with
  | single ks =>
    simp only [Spectra.getitem, hidx, RowIndex.isMulti, Bool.false_eq_true,
      if_false, ite_false, Spectra.locGet, Spectra.resolveCol, h]
  | multi ks =>
    simp only [Spectra.getitem, hidx, RowIndex.isMulti, if_true, ite_true,
      Spectra.locGet, Spectra.resolveCol, h]

/-- A successful element access means the locator resolved the key. -/
theorem getitem_ok_locate (s : SpectraState) (q : ℚ) (v : List ℚ)
    (h : Spectra.getitem s q = .ok v) :
    ∃ b, Spectra.locate s.wavelengths (Spectra.toleranceVal s) q = some b := by
  cases hloc : Spectra.locate s.wavelengths (Spectra.toleranceVal s) q with
  | some b => exact ⟨b, rfl⟩
  | none =>
    rw [getitem_noMatch s q hloc] at h
    cases h

/-- C8, amended: for a non-negative tolerance `t` and a stored wavelength
`w`, a lookup of `w + ε` with `|ε| ≤ t` returns the same data as a direct
lookup of `w` *provided every other stored label is farther from `w + ε`
than `w` is*; a lookup of `w + ε` fails when *every* stored label is
farther than `t` from it (which `|ε| > t` alone does not guarantee); and
with tolerance `0` a successful lookup implies the key is stored
exactly. -/
theorem claim_C8 :
    ∀ (s : SpectraState) (t w ε : ℚ),
      Spectra.toleranceVal s = t → 0 ≤ t → w ∈ s.wavelengths →
      ((|ε| ≤ t →
          (∀ x ∈ s.wavelengths, x ≠ w → |ε| < |x - (w + ε)|) →
          Spectra.getitem s (w + ε) = Spectra.getitem s w) ∧
       ((∀ x ∈ s.wavelengths, t < |x - (w + ε)|) →
          Spectra.getitem s (w + ε) = .error .noMatch) ∧
       (t = 0 → ∀ q v, Spectra.getitem s q = .ok v → q ∈ s.wavelengths)) := by
  intro s t w ε htol ht hw
  have habs : |w - (w + ε)| = |ε| := by
    rw [show w - (w + ε) = -ε by ring, abs_neg]
  refine ⟨fun hεt hn => ?_, fun hfar => ?_, fun ht0 q v hq => ?_⟩
  · refine getitem_congr s (w + ε) w ?_
    rw [locate_strict hw (by rw [habs, htol]; exact hεt)
        (fun x hx hxw => by rw [habs]; exact hn x hx hxw),
      locate_self hw (htol ▸ ht)]
  · exact getitem_noMatch s (w + ε) (locate_none (fun x hx => htol ▸ hfar x hx))
  · obtain ⟨b, hb⟩ := getitem_ok_locate s q v hq
    rw [htol, ht0] at hb
    exact (locate_zero_exact hb).2

/-- Counterexample to C8 as stated: in the concrete table (wavelengths
`[0, 10]`, tolerance `4`) the stored label `0` and the offset `ε = 9`
have `|ε| > t`, yet the lookup of `0 + 9` succeeds — the locator resolves
it to the *other* stored label `10` and returns that column — instead of
failing with a lookup error. -/
theorem claim_C8_cex :
    (0 : ℚ) ∈ exState.wavelengths ∧
    Spectra.toleranceVal exState < |(9 : ℚ)| ∧
    Spectra.getitem exState ((0 : ℚ) + 9) = .ok [20] := by
  have h1 : ¬(|(0 : ℚ) - (0 + 9)| ≤ 4) := by
    rw [show (0 : ℚ) - (0 + 9) = -9 by ring, abs_neg,
      abs_of_nonneg (by norm_num : (0 : ℚ) ≤ 9)]
    norm_num
  have h2 : |(10 : ℚ) - (0 + 9)| ≤ 4 := by
    rw [show (10 : ℚ) - (0 + 9) = 1 by ring,
      abs_of_nonneg (by norm_num : (0 : ℚ) ≤ 1)]
    norm_num
  refine ⟨by decide, ?_, ?_⟩
  · rw [abs_of_nonneg (by norm_num : (0 : ℚ) ≤ 9)]
    show Spectra.toleranceVal exState < 9
    norm_num [Spectra.toleranceVal, exState, Spectra.mkState]
  · have hloc : Spectra.locate [0, 10] (Spectra.toleranceVal exState)
        ((0 : ℚ) + 9) = some 10 := by
      rw [show Spectra.toleranceVal exState = 4 from rfl]
      simp only [Spectra.locate, h1, h2, if_true, if_false, ite_true, ite_false]
    rw [show Spectra.getitem exState ((0 : ℚ) + 9) =
        Spectra.resolveCol exState ((0 : ℚ) + 9) [[10, 20, 30]] from rfl]
    rw [Spectra.resolveCol,
      show exState.wavelengths = [0, 10] from rfl, hloc]
    rfl

/-- Witness for the amended C8 on the concrete table: `w = 0`,
`ε = 2 ≤ t = 4`, and the other label `10` is farther from the key `2`
than `0` is, so the tolerant lookup of `0 + 2` equals the direct lookup
of `0`. -/
theorem claim_C8_witness :
    Spectra.getitem exState ((0 : ℚ) + 2) = Spectra.getitem exState 0 := by
  have habs2 : |(2 : ℚ)| = 2 := abs_of_nonneg (by norm_num)
  refine (claim_C8 exState 4 0 2 rfl (by norm_num) (by decide)).1
    (by rw [habs2]; norm_num) ?_
  intro x hx hxne
  rcases List.mem_cons.1 hx with rfl | hx1
  · exact absurd rfl hxne
  · rcases List.mem_cons.1 hx1 with rfl | hx2
    · rw [habs2, show (10 : ℚ) - ((0 : ℚ) + 2) = 8 by norm_num,
        abs_of_nonneg (by norm_num : (0 : ℚ) ≤ 8)]
      norm_num
    · cases hx2

/-- C10: the table returned by `linear_correction` has an empty metadata
column set — the constructor is passed no metadata, the corrected rows are
indexed solely by wavelengths, and the default
`columns.difference(wavelengths)` is then empty. -/
theorem claim_C10 :
    ∀ s : SpectraState, (Spectra.linear_correction s).metadata = [] := by
  intro s
  simp only [Spectra.linear_correction, Spectra.mkState, Spectra.corrFrame,
    ne_eq, not_true_eq_false, if_false, ite_false]
  exact index_difference_self _
